import Mathlib

/-!
Verification development for the Monte Carlo forecasting engine in
`src/index.js` of the assemble repository.

Modelling conventions:
* JS numbers are embedded as exact rationals (ℚ).  The simulation works on
  story-point counts and period counts, which are small integers, so exact
  arithmetic is faithful there.  The percentile index of line 307,
  `Math.floor(sortedResults.length * (level / 100))`, is evaluated in IEEE-754
  binary64: the division and the multiplication each round.  This is embedded
  exactly with `fl64`, round-to-nearest-ties-to-even at 53 bits of precision
  on exact rationals (e.g. `100 * (57 / 100)` yields 56.99999999999999…,
  which floors to 56, not 57).
* The ambient random source `Math.random()` is embedded as an explicit stream
  `s : ℕ → ℚ` together with a cursor position; each call to the JS function
  reads the stream at the cursor and advances it.  `sampleVelocity` combines
  its two uniform draws through the transcendental Box-Muller transform
  `z = sqrt(-2 ln u1) * cos(2 pi u2)`; the embedding lets the stream supply
  the resulting normal deviate `z` directly (one stream cell per baseline
  draw), which preserves the function's arithmetic on `mean`, `stdDev` and `z`.
* The `while (remainingPoints > 0)` loop of `runMonteCarloSimulation` has no
  iteration bound in the source and can diverge; it is embedded with a fuel
  parameter, `none` meaning that the loop has not finished within the given
  fuel (for every fuel, in the divergence theorems).
* Out-of-range JS array reads yield `undefined` and propagate as `NaN`; the
  embedding uses `Option`, `none` standing for `undefined`/`NaN` values.
* `Math.sqrt` is irrational, so the `standardDeviation` field of the summary
  is represented by its square (the population variance computed by the code);
  definedness and equality of summaries are unaffected since `sqrt` is
  injective on non-negative reals.
* Calendar dates are embedded as integer day numbers; `new Date()` (ambient
  wall-clock "today") becomes an explicit input `today : ℤ`, and
  `completionDate.setDate(today.getDate() + daysToAdd)` becomes `today + d`.
* The Jira HTTP fetches (`fetchProjectIssues`, the board and sprint requests)
  are external I/O; their JSON results are inputs of the embedded functions.
-/

namespace Assemble

/-- JS `Math.round`: round to the nearest integer, halves toward positive
infinity, as in line 285 and line 295 of the source. -/
def jsRound (x : ℚ) : ℚ := ((⌊x + 1/2⌋ : ℤ) : ℚ)

/-- Shape of the value returned by `fetchHistoricalVelocity` (lines 216-227). -/
structure VelocityData where
  velocities : List ℚ
  mean : ℚ
  stdDev : ℚ
deriving DecidableEq

/-- One Jira issue as consumed by `calculateTotalRemainingStoryPoints`:
only the story-point custom field matters; `none` models a missing
`customfield_10016` (JS `undefined`/`null`). -/
structure Issue where
  storyPoints : Option ℚ
deriving DecidableEq

/-- The JSON returned by `fetchProjectIssues`; `issues := none` models a
response without an `issues` array (the `issuesData && issuesData.issues`
guard on line 264). -/
structure IssuesData where
  issues : Option (List Issue)
deriving DecidableEq

/-- The JSON returned by the board request in `fetchHistoricalVelocity`;
only emptiness of `boardsData.values` is inspected (line 207). -/
structure BoardsData where
  values : Option (List ℕ)
deriving DecidableEq

/-- Lines 259-272: sum of `issue.fields.customfield_10016 || 0` over
`issuesData.issues`, or `0` when the guard on line 264 fails. -/
def calculateTotalRemainingStoryPoints (issuesData : IssuesData) : ℚ :=
  match issuesData.issues with
  | none => 0
  | some issues => issues.foldl (fun sum issue => sum + issue.storyPoints.getD 0) 0

/-- Lines 197-228: when the board list is non-empty the function returns the
hard-coded mock velocity data; otherwise the all-zero record.  The
`periodCount` argument only parametrises the external sprint request and does
not influence the returned value. -/
def fetchHistoricalVelocity (boardsData : BoardsData) (periodCount : ℕ) : VelocityData :=
  match boardsData.values with
  | some (_ :: _) =>
      { velocities := [21, 18, 23, 19, 22, 20], mean := 41/2, stdDev := 187/100 }
  | _ => { velocities := [], mean := 0, stdDev := 0 }

/-- Lines 275-286: `Math.max(0, Math.round(mean + z * stdDev))`, where `z` is
the Box-Muller normal deviate computed from the two ambient uniform draws
(supplied here directly by the random stream). -/
def sampleVelocity (velocityData : VelocityData) (z : ℚ) : ℚ :=
  max 0 (jsRound (velocityData.mean + z * velocityData.stdDev))

/-- Lines 289-299: with probability 0.2 (first draw below 1/5) reduce the
velocity by an impact drawn uniformly in [0.2, 0.6) from the second draw;
otherwise pass the velocity through.  Returns the new stream cursor: the
impact draw happens only inside the blocked branch, exactly as in the JS. -/
def applyRandomBlockers (velocity : ℚ) (s : ℕ → ℚ) (pos : ℕ) : ℚ × ℕ :=
  if s pos < 1/5 then
    let impactPercentage := 1/5 + s (pos + 1) * (2/5)
    (jsRound (velocity * (1 - impactPercentage)), pos + 2)
  else
    (velocity, pos + 1)

/-- The `while (remainingPoints > 0)` loop of lines 239-250, fuelled.  State:
remaining points, periods counter, stream cursor.  `none` means the loop did
not exhaust the remaining points within `fuel` iterations (the JS loop has no
bound and simply keeps running). -/
def runTrialLoop (vd : VelocityData) (includeBlockers : Bool) (s : ℕ → ℚ) :
    ℕ → ℚ → ℕ → ℕ → Option (ℕ × ℕ)
  | 0, remainingPoints, periodsRequired, pos =>
      if 0 < remainingPoints then none else some (periodsRequired, pos)
  | fuel + 1, remainingPoints, periodsRequired, pos =>
      if 0 < remainingPoints then
        let velocity := sampleVelocity vd (s pos)
        let ep :=
          if includeBlockers then applyRandomBlockers velocity s (pos + 1)
          else (velocity, pos + 1)
        runTrialLoop vd includeBlockers s fuel (remainingPoints - ep.1)
          (periodsRequired + 1) ep.2
      else some (periodsRequired, pos)

/-- The `for` loop over trials of lines 235-253: run `iterations` trials,
threading the stream cursor, collecting each trial's `periodsRequired`. -/
def runSimLoop (vd : VelocityData) (includeBlockers : Bool) (s : ℕ → ℚ)
    (fuel : ℕ) (totalStoryPoints : ℚ) : ℕ → ℕ → Option (List ℕ × ℕ)
  | 0, pos => some ([], pos)
  | i + 1, pos =>
      match runTrialLoop vd includeBlockers s fuel totalStoryPoints 0 pos with
      | none => none
      | some (periodsRequired, pos') =>
          match runSimLoop vd includeBlockers s fuel totalStoryPoints i pos' with
          | none => none
          | some (rest, pos'') => some (periodsRequired :: rest, pos'')

/-- Lines 231-256: compute the total remaining story points and run the
trials.  Besides the trial results the embedding returns the final stream
cursor, which records how much ambient randomness was consumed. -/
def runMonteCarloSimulation (fuel : ℕ) (issuesData : IssuesData)
    (velocityData : VelocityData) (iterations : ℕ) (includeBlockers : Bool)
    (s : ℕ → ℚ) (pos : ℕ) : Option (List ℕ × ℕ) :=
  runSimLoop velocityData includeBlockers s fuel
    (calculateTotalRemainingStoryPoints issuesData) iterations pos

/-- The record built on lines 317-322 for each confidence level.  `none`
fields model the `undefined`/`NaN`/invalid-date values produced when the
percentile index falls outside the sorted array. -/
structure ConfidenceInterval where
  confidence : ℕ
  periodsRequired : Option ℕ
  daysRemaining : Option ℕ
  completionDate : Option ℤ
deriving DecidableEq

/-- Ascending numeric sort, the `sort((a, b) => a - b)` of lines 304 and 332.
On naturals any correct sort produces the same (unique) sorted permutation. -/
def sortAsc (l : List ℕ) : List ℕ := l.insertionSort (· ≤ ·)

/-- Round to the nearest integer with ties to even: the rounding mode of
IEEE-754 binary64 arithmetic. -/
def roundHalfEven (r : ℚ) : ℤ :=
  if r - ⌊r⌋ < 1/2 then ⌊r⌋
  else if 1/2 < r - ⌊r⌋ then ⌊r⌋ + 1
  else if Even ⌊r⌋ then ⌊r⌋ else ⌊r⌋ + 1

/-- Round a rational to the nearest IEEE-754 binary64 value: 53-bit mantissa,
round to nearest, ties to even.  The exponent range is unbounded, which is
faithful for all magnitudes arising here (far from subnormal and overflow
territory); negative inputs never occur in the rounded positions and map to 0.
JS numbers are binary64, so each arithmetic result the program computes is the
exact rational result of the operation rounded by this function. -/
def fl64 (x : ℚ) : ℚ :=
  if 0 < x then
    ((roundHalfEven (x / 2 ^ (Int.log 2 x - 52)) : ℤ) : ℚ) * 2 ^ (Int.log 2 x - 52)
  else 0

/-- The body of `calculateConfidenceIntervals` after the sort (lines 306-323):
index `Math.floor(sortedResults.length * (level / 100))` into the sorted
results — computed as JS computes it, in binary64: `level / 100` rounds, the
product with the (exactly representable) length rounds, `Math.floor` is exact
and the result is a non-negative integer used as the array index — then
convert periods to days (times the hard-coded 14) and to a completion date
from the ambient `today`. -/
def calcIntervalsFromSorted (sortedResults : List ℕ) (confidenceLevels : List ℕ)
    (today : ℤ) : List ConfidenceInterval :=
  confidenceLevels.map fun (level : ℕ) =>
    let index := (⌊fl64 ((sortedResults.length : ℚ) * fl64 ((level : ℚ) / 100))⌋).toNat
    let periodsRequired := sortedResults[index]?
    let daysToAdd := periodsRequired.map (fun p => p * 14)
    { confidence := level
      periodsRequired := periodsRequired
      daysRemaining := daysToAdd
      completionDate := daysToAdd.map (fun (d : ℕ) => today + (d : ℤ)) }

/-- Lines 302-324: sort a spread-copy of the results, then build one interval
per requested confidence level.  `today` is the embedded `new Date()`. -/
def calculateConfidenceIntervals (simulationResults : List ℕ)
    (confidenceLevels : List ℕ) (today : ℤ) : List ConfidenceInterval :=
  calcIntervalsFromSorted (sortAsc simulationResults) confidenceLevels today

/-- The body of `calculateMedian` after the sort (lines 333-339): average the
two middle elements for even length, middle element otherwise.  For the empty
array the JS reads `undefined` and returns `NaN`, here `none`. -/
def medianFromSorted (sortedArray : List ℕ) : Option ℚ :=
  let middle := sortedArray.length / 2
  if sortedArray.length % 2 = 0 then
    match sortedArray[middle - 1]?, sortedArray[middle]? with
    | some a, some b => some (((a : ℚ) + (b : ℚ)) / 2)
    | _, _ => none
  else
    (sortedArray[middle]?).map (fun a => (a : ℚ))

/-- Lines 331-340: sort a spread-copy, then take the middle. -/
def calculateMedian (array : List ℕ) : Option ℚ :=
  medianFromSorted (sortAsc array)

/-- Lines 327-329: arithmetic mean; for the empty array the JS computes
`0 / 0 = NaN`, here `none`. -/
def calculateMean (array : List ℕ) : Option ℚ :=
  if array.length = 0 then none
  else some ((array.foldl (fun sum v => sum + (v : ℚ)) 0) / array.length)

/-- Lines 342-349 up to the square root: the population variance
`sum (v - mean)^2 / length`.  The code returns `Math.sqrt` of this value; the
embedding keeps the (rational) radicand. -/
def calculateVariance (array : List ℕ) : Option ℚ :=
  match calculateMean array with
  | none => none
  | some mean =>
      some ((array.foldl (fun sum v => sum + ((v : ℚ) - mean) ^ 2) 0) / array.length)

/-- The summary object of lines 179-183.  `standardDeviationSq` holds the
variance whose square root the code reports as `standardDeviation`. -/
structure SimulationSummary where
  mean : Option ℚ
  median : Option ℚ
  standardDeviationSq : Option ℚ
deriving DecidableEq

/-- The object returned by `monteCarlo` on lines 176-184: the echoed iteration
count, the confidence intervals and the summary — and nothing else. -/
structure ForecastResult where
  iterations : ℕ
  confidenceIntervals : List ConfidenceInterval
  simulationSummary : SimulationSummary
deriving DecidableEq

/-- The `simulationParams` object of the request (lines 54-58). -/
structure SimulationParams where
  useHistoricalVelocity : Bool
  periodCount : ℕ
  includeBlockers : Bool
deriving DecidableEq

/-- The request consumed by `monteCarlo` (line 156).  The `projectKey` only
selects which external data is fetched and is not modelled; note there is no
random-seed field anywhere in the request. -/
structure MonteCarloRequest where
  iterations : ℕ
  confidenceLevels : List ℕ
  simulationParams : SimulationParams
deriving DecidableEq

/-- Lines 155-185: fetch velocity data (from the supplied board JSON), run the
simulation, reduce to intervals and summary.  The issue JSON, board JSON,
ambient random stream and ambient wall-clock date are explicit inputs; `none`
models a call that never returns because the trial loop diverges. -/
def monteCarlo (fuel : ℕ) (req : MonteCarloRequest) (issuesData : IssuesData)
    (boardsData : BoardsData) (s : ℕ → ℚ) (today : ℤ) : Option ForecastResult :=
  let velocityData := fetchHistoricalVelocity boardsData req.simulationParams.periodCount
  match runMonteCarloSimulation fuel issuesData velocityData req.iterations
      req.simulationParams.includeBlockers s 0 with
  | none => none
  | some (simulationResults, _) =>
      some
        { iterations := req.iterations
          confidenceIntervals :=
            calculateConfidenceIntervals simulationResults req.confidenceLevels today
          simulationSummary :=
            { mean := calculateMean simulationResults
              median := calculateMedian simulationResults
              standardDeviationSq := calculateVariance simulationResults } }

/-!
JS arrays are mutable objects on a heap.  To state the frame property of the
reducers (they sort a spread-copy, `[...array].sort(...)`, and leave the input
array untouched, lines 304 and 332) the two sorting reducers are also embedded
at the array-object level: a heap of arrays addressed by references, on which
the spread copy allocates a fresh array and `sort` mutates its receiver in
place.
-/

/-- A heap of JS number arrays; a reference is an index into the heap. -/
abbrev Heap : Type := List (List ℕ)

/-- Dereference: the contents of the array object at reference `r`. -/
def Heap.refGet (h : Heap) (r : ℕ) : List ℕ :=
  (h[r]?).getD []

/-- The spread `[...a]`: allocate a fresh array object with the given
contents, returning the new heap and the fresh reference. -/
def Heap.alloc (h : Heap) (v : List ℕ) : Heap × ℕ :=
  (h ++ [v], h.length)

/-- The size of the heap (number of allocated array objects). -/
def Heap.size (h : Heap) : ℕ := h.length

/-- JS `a.sort((x, y) => x - y)`: sort the array object at `r` in place. -/
def Heap.sortInPlace (h : Heap) (r : ℕ) : Heap :=
  h.set r (sortAsc (Heap.refGet h r))

/-- calculateConfidenceIntervals at the array-object level: copy the input
array (line 304), sort the copy in place, and read the sorted copy to build
the intervals; the final heap is returned alongside the result. -/
def calculateConfidenceIntervalsH (h : Heap) (r : ℕ) (confidenceLevels : List ℕ)
    (today : ℤ) : Heap × List ConfidenceInterval :=
  let a := Heap.alloc h (Heap.refGet h r)
  let h2 := Heap.sortInPlace a.1 a.2
  (h2, calcIntervalsFromSorted (Heap.refGet h2 a.2) confidenceLevels today)

/-- calculateMedian at the array-object level: copy (line 332), sort the copy
in place, read the middle of the sorted copy. -/
def calculateMedianH (h : Heap) (r : ℕ) : Heap × Option ℚ :=
  let a := Heap.alloc h (Heap.refGet h r)
  let h2 := Heap.sortInPlace a.1 a.2
  (h2, medianFromSorted (Heap.refGet h2 a.2))

/-! Helper lemmas shared by the claim theorems. -/

lemma sortAsc_sorted (l : List ℕ) : (sortAsc l).Sorted (· ≤ ·) :=
  List.sorted_insertionSort _ l

lemma sortAsc_perm (l : List ℕ) : (sortAsc l).Perm l :=
  List.perm_insertionSort _ l

lemma sortAsc_length (l : List ℕ) : (sortAsc l).length = l.length :=
  List.length_insertionSort _ l

lemma mem_of_mem_sortAsc {l : List ℕ} {v : ℕ} (h : v ∈ sortAsc l) : v ∈ l :=
  (sortAsc_perm l).mem_iff.mp h

lemma floor_le_roundHalfEven (r : ℚ) : ⌊r⌋ ≤ roundHalfEven r := by
  rw [roundHalfEven]
  split_ifs <;> omega

lemma roundHalfEven_le_floor_add_one (r : ℚ) : roundHalfEven r ≤ ⌊r⌋ + 1 := by
  rw [roundHalfEven]
  split_ifs <;> omega

lemma roundHalfEven_le_add_half (r : ℚ) : (roundHalfEven r : ℚ) ≤ r + 1/2 := by
  have h1 := Int.floor_le r
  have h2 := Int.lt_floor_add_one r
  rw [roundHalfEven]
  split_ifs with ha hb hc <;> push_cast <;> linarith

lemma sub_half_le_roundHalfEven (r : ℚ) : r - 1/2 ≤ (roundHalfEven r : ℚ) := by
  have h1 := Int.floor_le r
  have h2 := Int.lt_floor_add_one r
  rw [roundHalfEven]
  split_ifs with ha hb hc <;> push_cast <;> linarith

/-- The rounding only lands exactly half above its input on a tie with an odd
floor. -/
lemma roundHalfEven_eq_add_half {r : ℚ} (h : (roundHalfEven r : ℚ) = r + 1/2) :
    ¬ Even ⌊r⌋ := by
  have h1 := Int.floor_le r
  have h2 := Int.lt_floor_add_one r
  rw [roundHalfEven] at h
  split_ifs at h with ha hb hc
  · exfalso; push_cast at h; linarith
  · exfalso; push_cast at h; linarith
  · exfalso; push_cast at h; linarith
  · exact hc

/-- The rounding only lands exactly half below its input on a tie with an
even floor. -/
lemma roundHalfEven_eq_sub_half {r : ℚ} (h : (roundHalfEven r : ℚ) = r - 1/2) :
    Even ⌊r⌋ := by
  have h1 := Int.floor_le r
  have h2 := Int.lt_floor_add_one r
  rw [roundHalfEven] at h
  split_ifs at h with ha hb hc
  · exfalso; push_cast at h; linarith
  · exfalso; push_cast at h; linarith
  · exact hc
  · exfalso; push_cast at h; linarith

/-- Round-to-nearest-ties-to-even is monotone: the half-ulp bounds leave at
most a gap of one, and the two extremes cannot happen together because they
demand an odd and an even floor of the same number. -/
lemma roundHalfEven_mono {r s : ℚ} (h : r ≤ s) :
    roundHalfEven r ≤ roundHalfEven s := by
  by_contra hc
  push_neg at hc
  have hub := roundHalfEven_le_add_half r
  have hlb := sub_half_le_roundHalfEven s
  have hint : roundHalfEven s + 1 ≤ roundHalfEven r := hc
  have h1 : (roundHalfEven s : ℚ) + 1 ≤ (roundHalfEven r : ℚ) := by exact_mod_cast hint
  have e1 : (roundHalfEven r : ℚ) = r + 1/2 := le_antisymm hub (by linarith)
  have e2 : (roundHalfEven s : ℚ) = s - 1/2 := le_antisymm (by linarith) hlb
  have e3 : r = s := le_antisymm h (by linarith)
  have hodd := roundHalfEven_eq_add_half e1
  have heven := roundHalfEven_eq_sub_half e2
  rw [e3] at hodd
  exact hodd heven

lemma int_log_eq {x : ℚ} {e : ℤ} (h1 : (2:ℚ) ^ e ≤ x) (h2 : x < 2 ^ (e + 1)) :
    Int.log 2 x = e := by
  have hx : 0 < x := lt_of_lt_of_le (by positivity) h1
  have hle : e ≤ Int.log 2 x :=
    (Int.zpow_le_iff_le_log (by norm_num) hx).mp (by exact_mod_cast h1)
  have hlt : Int.log 2 x < e + 1 :=
    (Int.lt_zpow_iff_log_lt (by norm_num) hx).mp (by exact_mod_cast h2)
  omega

lemma fl64_of_pos {x : ℚ} (hx : 0 < x) :
    fl64 x = ((roundHalfEven (x / 2 ^ (Int.log 2 x - 52)) : ℤ) : ℚ) *
      2 ^ (Int.log 2 x - 52) := by
  rw [fl64, if_pos hx]

/-- Evaluation scheme for `fl64` at concrete inputs: supply the binade and
the rounded mantissa. -/
lemma fl64_eval {x : ℚ} {e m : ℤ} (h1 : (2:ℚ) ^ e ≤ x) (h2 : x < 2 ^ (e + 1))
    (h3 : roundHalfEven (x / 2 ^ (e - 52)) = m) :
    fl64 x = (m : ℚ) * 2 ^ (e - 52) := by
  have hx : 0 < x := lt_of_lt_of_le (by positivity) h1
  rw [fl64_of_pos hx, int_log_eq h1 h2, h3]

lemma fl64_nonneg (x : ℚ) : 0 ≤ fl64 x := by
  rw [fl64]
  split_ifs with hx
  · have hr : (0:ℚ) ≤ x / 2 ^ (Int.log 2 x - 52) := by positivity
    have h0 : (0:ℤ) ≤ roundHalfEven (x / 2 ^ (Int.log 2 x - 52)) :=
      le_trans (Int.floor_nonneg.mpr hr) (floor_le_roundHalfEven _)
    exact mul_nonneg (by exact_mod_cast h0) (by positivity)
  · exact le_refl 0

/-- Relative error bound: rounding adds at most half an ulp, which is at most
`x / 2 ^ 53` in the binade of `x`. -/
lemma fl64_le {x : ℚ} (hx : 0 ≤ x) : fl64 x ≤ x + x / 2 ^ 53 := by
  rcases eq_or_lt_of_le hx with heq | hpos
  · rw [← heq]
    simp [fl64]
  · rw [fl64_of_pos hpos]
    have hulp : (0:ℚ) < 2 ^ (Int.log 2 x - 52) := by positivity
    have hrhe := roundHalfEven_le_add_half (x / 2 ^ (Int.log 2 x - 52))
    have h1 : ((roundHalfEven (x / 2 ^ (Int.log 2 x - 52)) : ℤ) : ℚ) *
        2 ^ (Int.log 2 x - 52) ≤
        (x / 2 ^ (Int.log 2 x - 52) + 1/2) * 2 ^ (Int.log 2 x - 52) :=
      mul_le_mul_of_nonneg_right hrhe hulp.le
    have h2 : (x / 2 ^ (Int.log 2 x - 52) + 1/2) * 2 ^ (Int.log 2 x - 52) =
        x + 2 ^ (Int.log 2 x - 52) / 2 := by
      rw [add_mul, div_mul_cancel₀ _ (ne_of_gt hulp)]
      ring
    have h3 : (2:ℚ) ^ (Int.log 2 x - 52) / 2 ≤ x / 2 ^ 53 := by
      rw [div_le_div_iff (by norm_num) (by positivity : (0:ℚ) < 2 ^ (53:ℕ))]
      have hl : (2:ℚ) ^ Int.log 2 x ≤ x := by
        exact_mod_cast Int.zpow_log_le_self (b := 2) (by norm_num) hpos
      have hpow : (2:ℚ) ^ (Int.log 2 x - 52) * 2 ^ (53:ℕ) =
          2 ^ Int.log 2 x * 2 := by
        have e1 : (2:ℚ) ^ Int.log 2 x * 2 = 2 ^ (Int.log 2 x + 1) := by
          rw [zpow_add₀ (two_ne_zero : (2:ℚ) ≠ 0), zpow_one]
        rw [e1, ← zpow_natCast (2:ℚ) 53, ← zpow_add₀ (two_ne_zero : (2:ℚ) ≠ 0)]
        congr 1
        omega
      rw [hpow]
      linarith
    linarith

/-- Monotonicity of binary64 rounding. -/
lemma fl64_mono {x y : ℚ} (hxy : x ≤ y) : fl64 x ≤ fl64 y := by
  rcases le_or_lt x 0 with hx | hx
  · rw [show fl64 x = 0 from by rw [fl64, if_neg (not_lt.mpr hx)]]
    exact fl64_nonneg y
  · have hy : 0 < y := lt_of_lt_of_le hx hxy
    have hee : Int.log 2 x ≤ Int.log 2 y := Int.log_mono_right hx hxy
    rcases eq_or_lt_of_le hee with heq | hlt
    · rw [fl64_of_pos hx, fl64_of_pos hy, ← heq]
      have hulp : (0:ℚ) < 2 ^ (Int.log 2 x - 52) := by positivity
      have hr : x / 2 ^ (Int.log 2 x - 52) ≤ y / 2 ^ (Int.log 2 x - 52) :=
        (div_le_div_right hulp).mpr hxy
      have := roundHalfEven_mono hr
      exact mul_le_mul_of_nonneg_right (by exact_mod_cast this) hulp.le
    · have h1 : fl64 x ≤ 2 ^ (Int.log 2 x + 1) := by
        rw [fl64_of_pos hx]
        have hulp : (0:ℚ) < 2 ^ (Int.log 2 x - 52) := by positivity
        have hub : x < 2 ^ (Int.log 2 x + 1) := by
          exact_mod_cast Int.lt_zpow_succ_log_self (b := 2) (by norm_num) x
        have hr : x / 2 ^ (Int.log 2 x - 52) < 9007199254740992 := by
          rw [div_lt_iff hulp]
          calc x < 2 ^ (Int.log 2 x + 1) := hub
            _ = 9007199254740992 * 2 ^ (Int.log 2 x - 52) := by
                rw [show (9007199254740992:ℚ) = 2 ^ (53:ℤ) from by norm_num,
                  ← zpow_add₀ (two_ne_zero : (2:ℚ) ≠ 0)]
                congr 1
                omega
        have hfl : ⌊x / 2 ^ (Int.log 2 x - 52)⌋ < (9007199254740992:ℤ) := by
          rw [Int.floor_lt]
          exact_mod_cast hr
        have hrhe : roundHalfEven (x / 2 ^ (Int.log 2 x - 52)) ≤
            (9007199254740992:ℤ) := by
          have h6 := roundHalfEven_le_floor_add_one (x / 2 ^ (Int.log 2 x - 52))
          omega
        calc ((roundHalfEven (x / 2 ^ (Int.log 2 x - 52)) : ℤ) : ℚ) *
              2 ^ (Int.log 2 x - 52)
            ≤ (9007199254740992:ℚ) * 2 ^ (Int.log 2 x - 52) :=
              mul_le_mul_of_nonneg_right (by exact_mod_cast hrhe) hulp.le
          _ = 2 ^ (Int.log 2 x + 1) := by
              rw [show (9007199254740992:ℚ) = 2 ^ (53:ℤ) from by norm_num,
                ← zpow_add₀ (two_ne_zero : (2:ℚ) ≠ 0)]
              congr 1
              omega
      have h2 : (2:ℚ) ^ (Int.log 2 x + 1) ≤ 2 ^ Int.log 2 y :=
        zpow_le_zpow_right₀ (by norm_num) hlt
      have h3 : (2:ℚ) ^ Int.log 2 y ≤ fl64 y := by
        rw [fl64_of_pos hy]
        have hulp : (0:ℚ) < 2 ^ (Int.log 2 y - 52) := by positivity
        have hlb : (2:ℚ) ^ Int.log 2 y ≤ y := by
          exact_mod_cast Int.zpow_log_le_self (b := 2) (by norm_num) hy
        have hr : (4503599627370496:ℚ) ≤ y / 2 ^ (Int.log 2 y - 52) := by
          rw [le_div_iff hulp]
          calc (4503599627370496:ℚ) * 2 ^ (Int.log 2 y - 52)
              = 2 ^ Int.log 2 y := by
                rw [show (4503599627370496:ℚ) = 2 ^ (52:ℤ) from by norm_num,
                  ← zpow_add₀ (two_ne_zero : (2:ℚ) ≠ 0)]
                congr 1
                omega
            _ ≤ y := hlb
        have hfl : (4503599627370496:ℤ) ≤ ⌊y / 2 ^ (Int.log 2 y - 52)⌋ := by
          rw [Int.le_floor]
          exact_mod_cast hr
        have hrhe : (4503599627370496:ℤ) ≤
            roundHalfEven (y / 2 ^ (Int.log 2 y - 52)) := by
          have h6 := floor_le_roundHalfEven (y / 2 ^ (Int.log 2 y - 52))
          omega
        calc (2:ℚ) ^ Int.log 2 y
            = (4503599627370496:ℚ) * 2 ^ (Int.log 2 y - 52) := by
              rw [show (4503599627370496:ℚ) = 2 ^ (52:ℤ) from by norm_num,
                ← zpow_add₀ (two_ne_zero : (2:ℚ) ≠ 0)]
              congr 1
              omega
          _ ≤ ((roundHalfEven (y / 2 ^ (Int.log 2 y - 52)) : ℤ) : ℚ) *
              2 ^ (Int.log 2 y - 52) :=
              mul_le_mul_of_nonneg_right (by exact_mod_cast hrhe) hulp.le
      linarith

/-- The index of line 307 stays within the array for any level below 100 (the
float computation loses at most a relative 2⁻⁵³ per rounding, far too little
to reach `N`). -/
lemma js_index_lt {N level : ℕ} (hN : 0 < N) (hlevel : level < 100) :
    (⌊fl64 ((N : ℚ) * fl64 ((level : ℚ) / 100))⌋).toNat < N := by
  have hu1 : fl64 ((level : ℚ) / 100) ≤ 99 / 100 + (99 / 100) / 2 ^ 53 := by
    have hl99 : (level : ℚ) / 100 ≤ 99 / 100 := by
      have h99 : (level : ℚ) ≤ 99 := by exact_mod_cast Nat.lt_succ_iff.mp hlevel
      linarith
    have h := fl64_le (x := (level : ℚ) / 100) (by positivity)
    have hmono : (level : ℚ) / 100 / 2 ^ 53 ≤ (99 / 100 : ℚ) / 2 ^ 53 := by gcongr
    linarith
  have hx0 : (0:ℚ) ≤ (N : ℚ) * fl64 ((level : ℚ) / 100) :=
    mul_nonneg (by positivity) (fl64_nonneg _)
  have hx1 : (N : ℚ) * fl64 ((level : ℚ) / 100) ≤
      (N : ℚ) * (99 / 100 + (99 / 100) / 2 ^ 53) :=
    mul_le_mul_of_nonneg_left hu1 (by positivity)
  have hq := fl64_le hx0
  have hq2 : fl64 ((N : ℚ) * fl64 ((level : ℚ) / 100)) < N := by
    have hNp : (0:ℚ) < N := by exact_mod_cast hN
    have hC : ((99 / 100 + (99 / 100) / 2 ^ 53 : ℚ) +
        (99 / 100 + (99 / 100) / 2 ^ 53) / 2 ^ 53) < 1 := by norm_num
    have hx2 : (N : ℚ) * fl64 ((level : ℚ) / 100) / 2 ^ 53 ≤
        (N : ℚ) * (99 / 100 + (99 / 100) / 2 ^ 53) / 2 ^ 53 := by gcongr
    have hfin : (N : ℚ) * ((99 / 100 + (99 / 100) / 2 ^ 53) +
        (99 / 100 + (99 / 100) / 2 ^ 53) / 2 ^ 53) < N * 1 :=
      mul_lt_mul_of_pos_left hC hNp
    rw [mul_one] at hfin
    have hsplit : (N : ℚ) * ((99 / 100 + (99 / 100) / 2 ^ 53) +
        (99 / 100 + (99 / 100) / 2 ^ 53) / 2 ^ 53) =
        (N : ℚ) * (99 / 100 + (99 / 100) / 2 ^ 53) +
        (N : ℚ) * (99 / 100 + (99 / 100) / 2 ^ 53) / 2 ^ 53 := by ring
    linarith
  have hfloor : ⌊fl64 ((N : ℚ) * fl64 ((level : ℚ) / 100))⌋ < (N : ℤ) := by
    rw [Int.floor_lt]
    exact_mod_cast hq2
  omega

/-! Concrete binary64 roundings used by counterexamples and witnesses; each
binade and rounded mantissa is checked by `norm_num`. -/

lemma fl64_half : fl64 (1/2) = 1/2 := by
  have h := fl64_eval (x := 1/2) (e := -1) (m := 4503599627370496)
    (by norm_num) (by norm_num) (by norm_num [roundHalfEven])
  rw [h]
  norm_num

lemma fl64_one : fl64 1 = 1 := by
  have h := fl64_eval (x := 1) (e := 0) (m := 4503599627370496)
    (by norm_num) (by norm_num) (by norm_num [roundHalfEven])
  rw [h]
  norm_num

lemma fl64_three_halves : fl64 (3/2) = 3/2 := by
  have h := fl64_eval (x := 3/2) (e := 0) (m := 6755399441055744)
    (by norm_num) (by norm_num) (by norm_num [roundHalfEven])
  rw [h]
  norm_num

/-- The double nearest 0.95: `95/100` rounds down by 2⁻⁵⁴·… . -/
lemma fl64_p95 : fl64 (19/20) = 4278419646001971/4503599627370496 := by
  have h := fl64_eval (x := 19/20) (e := -1) (m := 8556839292003942)
    (by norm_num) (by norm_num) (by norm_num [roundHalfEven])
  rw [h]
  norm_num

/-- Multiplying the double nearest 0.95 by 1 is exact. -/
lemma fl64_p95_idem :
    fl64 (4278419646001971/4503599627370496) = 4278419646001971/4503599627370496 := by
  have h := fl64_eval (x := 4278419646001971/4503599627370496) (e := -1)
    (m := 8556839292003942)
    (by norm_num) (by norm_num) (by norm_num [roundHalfEven])
  rw [h]
  norm_num

/-- Multiplying the double nearest 0.95 by 2 is exact. -/
lemma fl64_two_p95 :
    fl64 (4278419646001971/2251799813685248) = 4278419646001971/2251799813685248 := by
  have h := fl64_eval (x := 4278419646001971/2251799813685248) (e := 0)
    (m := 8556839292003942)
    (by norm_num) (by norm_num) (by norm_num [roundHalfEven])
  rw [h]
  norm_num

/-- 3 times the double nearest 0.95 rounds on a tie to the even mantissa:
this is the JS value `3 * 0.95 = 2.8499999999999996`. -/
lemma fl64_three_p95 :
    fl64 (12835258938005913/4503599627370496) = 1604407367250739/562949953421312 := by
  have h := fl64_eval (x := 12835258938005913/4503599627370496) (e := 1)
    (m := 6417629469002956)
    (by norm_num) (by norm_num) (by norm_num [roundHalfEven, Int.even_iff])
  rw [h]
  norm_num

/-- The double nearest 0.57: `57/100` rounds down. -/
lemma fl64_p57 : fl64 (57/100) = 5134103575202365/9007199254740992 := by
  have h := fl64_eval (x := 57/100) (e := -1) (m := 5134103575202365)
    (by norm_num) (by norm_num) (by norm_num [roundHalfEven])
  rw [h]
  norm_num

/-- 100 times the double nearest 0.57 rounds to the JS value
`100 * 0.57 = 56.99999999999999`, which floors to 56 — not 57. -/
lemma fl64_hundred_p57 :
    fl64 (128352589380059125/2251799813685248) = 8022036836253695/140737488355328 := by
  have h := fl64_eval (x := 128352589380059125/2251799813685248) (e := 5)
    (m := 8022036836253695)
    (by norm_num) (by norm_num) (by norm_num [roundHalfEven])
  rw [h]
  norm_num

lemma getElem?_eq_some_get {l : List ℕ} {n : ℕ} (hn : n < l.length) :
    l[n]? = some (l.get ⟨n, hn⟩) := by
  rw [List.getElem?_eq_getElem hn]
  simp

/-- Characterisation of the intervals produced by the reducer: each comes
from one requested level via the map on lines 306-323. -/
lemma mem_calcIntervals {results levels : List ℕ} {today : ℤ}
    {ci : ConfidenceInterval}
    (h : ci ∈ calculateConfidenceIntervals results levels today) :
    ci.confidence ∈ levels ∧
    ci.periodsRequired =
      (sortAsc results)[(⌊fl64 (((sortAsc results).length : ℚ) *
        fl64 ((ci.confidence : ℚ) / 100))⌋).toNat]? ∧
    ci.daysRemaining = ci.periodsRequired.map (fun p => p * 14) ∧
    ci.completionDate = ci.daysRemaining.map (fun (d : ℕ) => today + (d : ℤ)) := by
  rcases List.mem_map.mp h with ⟨level, hlev, heq⟩
  subst heq
  exact ⟨hlev, rfl, rfl, rfl⟩

lemma runTrialLoop_zero_remaining (vd : VelocityData) (b : Bool) (s : ℕ → ℚ)
    (fuel periods pos : ℕ) :
    runTrialLoop vd b s fuel 0 periods pos = some (periods, pos) := by
  cases fuel <;> simp [runTrialLoop]

lemma sampleVelocity_zero_stats (vs : List ℚ) (z : ℚ) :
    sampleVelocity ⟨vs, 0, 0⟩ z = 0 := by
  simp [sampleVelocity, jsRound]
  norm_num

lemma applyRandomBlockers_zero_fst (s : ℕ → ℚ) (pos : ℕ) :
    (applyRandomBlockers 0 s pos).1 = 0 := by
  unfold applyRandomBlockers
  split
  · simp only [jsRound, zero_mul, zero_add]
    norm_num
  · rfl

/-- With all-zero velocity statistics each draw yields zero velocity, the
remaining points never decrease, and the unbounded JS loop never finishes:
the fuelled embedding returns `none` for every fuel. -/
lemma runTrialLoop_stuck (vs : List ℚ) (b : Bool) (s : ℕ → ℚ) (r : ℚ)
    (hr : 0 < r) :
    ∀ fuel periods pos, runTrialLoop ⟨vs, 0, 0⟩ b s fuel r periods pos = none := by
  intro fuel
  induction fuel with
  | zero =>
      intro periods pos
      simp [runTrialLoop, hr]
  | succ n ih =>
      intro periods pos
      rw [runTrialLoop, if_pos hr]
      cases b with
      | false =>
          simpa [sampleVelocity_zero_stats, sub_zero] using ih (periods + 1) (pos + 1)
      | true =>
          simpa [sampleVelocity_zero_stats, applyRandomBlockers_zero_fst, sub_zero]
            using ih (periods + 1) (applyRandomBlockers 0 s (pos + 1)).2

lemma runSimLoop_zero_total (vd : VelocityData) (b : Bool) (s : ℕ → ℚ)
    (fuel : ℕ) :
    ∀ iterations pos,
      runSimLoop vd b s fuel 0 iterations pos =
        some (List.replicate iterations 0, pos) := by
  intro iterations
  induction iterations with
  | zero => intro pos; simp [runSimLoop]
  | succ n ih =>
      intro pos
      simp [runSimLoop, runTrialLoop_zero_remaining, ih, List.replicate_succ]

lemma runSimLoop_length (vd : VelocityData) (b : Bool) (s : ℕ → ℚ)
    (fuel : ℕ) (total : ℚ) :
    ∀ iterations pos results pos',
      runSimLoop vd b s fuel total iterations pos = some (results, pos') →
      results.length = iterations := by
  intro iterations
  induction iterations with
  | zero =>
      intro pos results pos' h
      simp [runSimLoop] at h
      simp [h.1.symm]
  | succ n ih =>
      intro pos results pos' h
      rw [runSimLoop] at h
      split at h
      · exact absurd h (by simp)
      · rename_i pr pos₂ heq1
        split at h
        · exact absurd h (by simp)
        · rename_i rest pos₃ heq2
          simp only [Option.some.injEq, Prod.mk.injEq] at h
          rw [← h.1]
          simp [ih _ _ _ heq2]

lemma sortAsc_replicate_zero (n : ℕ) :
    sortAsc (List.replicate n 0) = List.replicate n 0 :=
  List.eq_of_perm_of_sorted (sortAsc_perm _) (sortAsc_sorted _)
    (List.pairwise_replicate.mpr (Or.inr le_rfl))

/-- Nearest-rank values are monotone in the confidence level on the sorted
copy: every step of the float index computation is monotone in the level. -/
lemma percentile_values_mono {results : List ℕ} (hne : results ≠ []) {p q : ℕ}
    (hpq : p ≤ q) (hq : q < 100) :
    ∃ v w, (sortAsc results)[(⌊fl64 (((sortAsc results).length : ℚ) *
        fl64 ((p : ℚ) / 100))⌋).toNat]? = some v ∧
      (sortAsc results)[(⌊fl64 (((sortAsc results).length : ℚ) *
        fl64 ((q : ℚ) / 100))⌋).toNat]? = some w ∧ v ≤ w := by
  have hN : 0 < results.length := List.length_pos.mpr hne
  have hip : (⌊fl64 (((sortAsc results).length : ℚ) *
      fl64 ((p : ℚ) / 100))⌋).toNat < (sortAsc results).length := by
    rw [sortAsc_length]
    exact js_index_lt hN (lt_of_le_of_lt hpq hq)
  have hiq : (⌊fl64 (((sortAsc results).length : ℚ) *
      fl64 ((q : ℚ) / 100))⌋).toNat < (sortAsc results).length := by
    rw [sortAsc_length]
    exact js_index_lt hN hq
  refine ⟨_, _, getElem?_eq_some_get hip, getElem?_eq_some_get hiq, ?_⟩
  refine (sortAsc_sorted results).rel_get_of_le ?_
  rw [Fin.mk_le_mk]
  have h1 : fl64 ((p : ℚ) / 100) ≤ fl64 ((q : ℚ) / 100) := by
    apply fl64_mono
    have : (p : ℚ) ≤ q := by exact_mod_cast hpq
    linarith
  have h2 : ((sortAsc results).length : ℚ) * fl64 ((p : ℚ) / 100) ≤
      ((sortAsc results).length : ℚ) * fl64 ((q : ℚ) / 100) :=
    mul_le_mul_of_nonneg_left h1 (by positivity)
  have h3 := Int.floor_le_floor (fl64_mono h2)
  omega

/-! Claim theorems. -/

/-- C1: the claim says the per-trial while loop fails with a NonConvergentTrial
condition once the period counter exceeds a generous bound (e.g. 10,000)
instead of looping forever when every draw is zero.  The code has no such
guard: this theorem evaluates the embedded loop at the failing input
(remaining work 5, the all-zero velocity statistics returned for an empty
history, under which every sampled velocity is 0) and shows it returns `none`
for every fuel — the `while (remainingPoints > 0)` loop of lines 239-250
never terminates, with or without blockers, for every random stream. -/
theorem trial_nonconvergence_unguarded (vs : List ℚ) (b : Bool) (s : ℕ → ℚ)
    (fuel pos : ℕ) :
    runTrialLoop ⟨vs, 0, 0⟩ b s fuel 5 0 pos = none :=
  runTrialLoop_stuck vs b s 5 (by norm_num) fuel 0 pos

/-- C2 counterexample: the forecast is not determined by its request and
fetched data alone — two runs with identical inputs but different ambient
`Math.random()` draws (embedded as two different streams) produce different
`ForecastResult`s.  There is no seed anywhere in the request, so the claim's
"fixed seed, identical results" fails on the code. -/
theorem monteCarlo_ambient_randomness_counterexample :
    monteCarlo 15 ⟨1, [50], ⟨true, 6, false⟩⟩ ⟨some [⟨some 21⟩]⟩ ⟨some [7]⟩
        (fun _ => 0) 0 ≠
    monteCarlo 15 ⟨1, [50], ⟨true, 6, false⟩⟩ ⟨some [⟨some 21⟩]⟩ ⟨some [7]⟩
        (fun _ => -5) 0 := by
  norm_num [monteCarlo, runMonteCarloSimulation, runSimLoop, runTrialLoop,
    fetchHistoricalVelocity, calculateTotalRemainingStoryPoints, sampleVelocity,
    jsRound, calculateConfidenceIntervals, calcIntervalsFromSorted, sortAsc,
    List.insertionSort, List.orderedInsert, calculateMean, calculateMedian,
    medianFromSorted, calculateVariance, fl64_half]

/-- C2 amended: the random source is the ambient `Math.random()` stream, not
an injectable seed; the forecast is nevertheless a pure function of its
inputs together with that ambient stream — two runs that see the same ambient
random draws produce identical `ForecastResult`s. -/
theorem monteCarlo_function_of_inputs_and_stream (fuel : ℕ)
    (req : MonteCarloRequest) (issuesData : IssuesData) (boardsData : BoardsData)
    (s₁ s₂ : ℕ → ℚ) (today : ℤ) (h : ∀ n, s₁ n = s₂ n) :
    monteCarlo fuel req issuesData boardsData s₁ today =
      monteCarlo fuel req issuesData boardsData s₂ today := by
  rw [show s₁ = s₂ from funext h]

/-- Witness for the C2 amended theorem at a concrete input. -/
theorem monteCarlo_function_of_inputs_and_stream_witness :
    monteCarlo 3 ⟨1, [50], ⟨true, 6, false⟩⟩ ⟨some [⟨some 21⟩]⟩ ⟨some [7]⟩
        (fun _ => 0) 0 =
      monteCarlo 3 ⟨1, [50], ⟨true, 6, false⟩⟩ ⟨some [⟨some 21⟩]⟩ ⟨some [7]⟩
        (fun n => 0 * (n : ℚ)) 0 :=
  monteCarlo_function_of_inputs_and_stream 3 ⟨1, [50], ⟨true, 6, false⟩⟩
    ⟨some [⟨some 21⟩]⟩ ⟨some [7]⟩ (fun _ => 0) (fun n => 0 * (n : ℚ)) 0
    (fun n => (zero_mul (n : ℚ)).symm)

/-- C5: with zero total remaining story points every trial exits the while
loop immediately: the simulation returns `iterations` copies of 0 with the
random-stream cursor unchanged (the Sampler is never invoked), for any
velocity data; and every resulting confidence interval reports 0 periods and
a completion date equal to the reference date. -/
theorem zero_remaining_zero_periods (fuel iterations pos : ℕ)
    (issuesData : IssuesData) (vd : VelocityData) (includeBlockers : Bool)
    (s : ℕ → ℚ) (levels : List ℕ) (today : ℤ)
    (h0 : calculateTotalRemainingStoryPoints issuesData = 0)
    (hiter : 0 < iterations) (hlev : ∀ p ∈ levels, p < 100) :
    runMonteCarloSimulation fuel issuesData vd iterations includeBlockers s pos =
      some (List.replicate iterations 0, pos) ∧
    ∀ ci ∈ calculateConfidenceIntervals (List.replicate iterations 0) levels today,
      ci.periodsRequired = some 0 ∧ ci.completionDate = some today := by
  constructor
  · rw [runMonteCarloSimulation, h0]
    exact runSimLoop_zero_total vd includeBlockers s fuel iterations pos
  · intro ci hci
    rcases mem_calcIntervals hci with ⟨hlevmem, hper, hdays, hdate⟩
    have hidx : (⌊fl64 ((iterations : ℚ) *
        fl64 ((ci.confidence : ℚ) / 100))⌋).toNat < iterations :=
      js_index_lt hiter (hlev _ hlevmem)
    have hper0 : ci.periodsRequired = some 0 := by
      rw [hper]
      simp [sortAsc_replicate_zero, List.getElem?_replicate, hidx]
    refine ⟨hper0, ?_⟩
    rw [hdate, hdays, hper0]
    simp

/-- Witness for C5 at a concrete input. -/
theorem zero_remaining_zero_periods_witness :
    runMonteCarloSimulation 0 ⟨none⟩ ⟨[], 0, 0⟩ 1 false (fun _ => 0) 4 =
      some (List.replicate 1 0, 4) ∧
    ∀ ci ∈ calculateConfidenceIntervals (List.replicate 1 0) [95] 5,
      ci.periodsRequired = some 0 ∧ ci.completionDate = some 5 :=
  zero_remaining_zero_periods 0 1 4 ⟨none⟩ ⟨[], 0, 0⟩ false (fun _ => 0) [95] 5
    rfl (by norm_num) (by norm_num)

/-- C6 counterexample: the period length is not a parameter of the reduction.
For the single trial result 1 the code reports 14 remaining days and a
completion date 14 days after today, i.e. `periodsRequired * 14`: a
configuration with a period length of 7 days (legal per the spec's
`SimulationConfig`) would require 7, so the claimed formula
`completionDate = referenceDate + periodsRequired * periodLengthDays` with a
configurable period length fails at this input. -/
theorem period_length_hardcoded_counterexample :
    calculateConfidenceIntervals [1] [50] 0 = [⟨50, some 1, some 14, some 14⟩] ∧
    (14 : ℕ) ≠ 1 * 7 := by
  norm_num [calculateConfidenceIntervals, calcIntervalsFromSorted, sortAsc,
    List.insertionSort, List.orderedInsert, fl64_half]

/-- C6 amended: the reducer converts periods to a calendar date as
`completionDate = today + periodsRequired * 14`: the reference date is the
ambient wall-clock `new Date()` at call time (an explicit input only in this
embedding, not a parameter of the JS function) and the period length is the
hard-coded constant 14 of line 314. -/
theorem completion_date_formula (results levels : List ℕ) (today : ℤ)
    (ci : ConfidenceInterval)
    (hci : ci ∈ calculateConfidenceIntervals results levels today) :
    ci.daysRemaining = ci.periodsRequired.map (fun p => p * 14) ∧
    ci.completionDate = ci.periodsRequired.map (fun p => today + ((p * 14 : ℕ) : ℤ)) := by
  rcases mem_calcIntervals hci with ⟨-, -, hdays, hdate⟩
  refine ⟨hdays, ?_⟩
  rw [hdate, hdays, Option.map_map]
  rfl

/-- Witness for the C6 amended theorem at a concrete input. -/
theorem completion_date_formula_witness :
    (⟨50, some 1, some 14, some 14⟩ : ConfidenceInterval).daysRemaining =
      (⟨50, some 1, some 14, some 14⟩ : ConfidenceInterval).periodsRequired.map
        (fun p => p * 14) ∧
    (⟨50, some 1, some 14, some 14⟩ : ConfidenceInterval).completionDate =
      (⟨50, some 1, some 14, some 14⟩ : ConfidenceInterval).periodsRequired.map
        (fun p => (0 : ℤ) + ((p * 14 : ℕ) : ℤ)) :=
  completion_date_formula [1] [50] 0 ⟨50, some 1, some 14, some 14⟩ (by
    norm_num [calculateConfidenceIntervals, calcIntervalsFromSorted, sortAsc,
      List.insertionSort, List.orderedInsert, fl64_half])

/-- The range list is already sorted, so the sorting copy leaves it as is. -/
lemma sortAsc_range (n : ℕ) : sortAsc (List.range n) = List.range n :=
  List.eq_of_perm_of_sorted (sortAsc_perm _) (sortAsc_sorted _)
    ((List.pairwise_lt_range n).imp le_of_lt)

/-- C3 counterexample: the reducer does not select the element at index
`floor(N * p / 100)`.  Line 307 computes `length * (level / 100)` in binary64,
and at N = 100, p = 57 the product of 100 with the double nearest 0.57 is
56.99999999999999…, which floors to 56 — the exact formula gives
`floor(100 * 57 / 100) = 57`.  On the sorted trial results 0,…,99 the code
therefore reports 56 while the claimed rank holds 57. -/
theorem percentile_exact_index_counterexample :
    calculateConfidenceIntervals (List.range 100) [57] 0 =
      [⟨57, some 56, some 784, some 784⟩] ∧
    (sortAsc (List.range 100))[100 * 57 / 100]? = some 57 ∧
    (56 : ℕ) ≠ 57 := by
  refine ⟨?_, ?_, by norm_num⟩
  · norm_num [calculateConfidenceIntervals, calcIntervalsFromSorted, sortAsc_range,
      fl64_p57, fl64_hundred_p57, List.getElem?_range]
    omega
  · rw [sortAsc_range]
    norm_num [List.getElem?_range]

/-- C3 amended: for a non-empty trial-result list and a requested confidence
level strictly between 0 and 100, the reducer selects the element of the
ascending-sorted copy at the binary64 index
`Math.floor(N * fl(p / 100))` — which can differ from the exact
`floor(N * p / 100)` — and that index provably lies within `[0, N-1]` (the
code applies no clamping and the float error is far too small to reach `N`);
the reported `periodsRequired` is a value present in the raw trial-result
list (nearest rank, never interpolated). -/
theorem percentile_rank_in_range (results levels : List ℕ) (today : ℤ)
    (ci : ConfidenceInterval) (hne : results ≠ [])
    (hci : ci ∈ calculateConfidenceIntervals results levels today)
    (hp0 : 0 < ci.confidence) (hp1 : ci.confidence < 100) :
    (⌊fl64 ((results.length : ℚ) * fl64 ((ci.confidence : ℚ) / 100))⌋).toNat <
      results.length ∧
    ∃ v, ci.periodsRequired = some v ∧
      (sortAsc results)[(⌊fl64 ((results.length : ℚ) *
        fl64 ((ci.confidence : ℚ) / 100))⌋).toNat]? = some v ∧
      v ∈ results := by
  have hN : 0 < results.length := List.length_pos.mpr hne
  have hidx : (⌊fl64 ((results.length : ℚ) *
      fl64 ((ci.confidence : ℚ) / 100))⌋).toNat < results.length :=
    js_index_lt hN hp1
  rcases mem_calcIntervals hci with ⟨-, hper, -, -⟩
  rw [sortAsc_length] at hper
  have hidx' : (⌊fl64 ((results.length : ℚ) *
      fl64 ((ci.confidence : ℚ) / 100))⌋).toNat < (sortAsc results).length := by
    rw [sortAsc_length]
    exact hidx
  refine ⟨hidx, (sortAsc results).get ⟨_, hidx'⟩, ?_, getElem?_eq_some_get hidx', ?_⟩
  · rw [hper]
    exact getElem?_eq_some_get hidx'
  · exact mem_of_mem_sortAsc (List.get_mem _ _ _)

/-- Witness for the C3 amended theorem at a concrete input: trial results
[2, 1, 3], level 50, sorted copy [1, 2, 3], float index 1, reported value 2. -/
theorem percentile_rank_in_range_witness :
    (1 : ℕ) < 3 ∧
    ∃ v, (some 2 : Option ℕ) = some v ∧ (sortAsc [2, 1, 3])[1]? = some v ∧
      v ∈ ([2, 1, 3] : List ℕ) := by
  have h := percentile_rank_in_range [2, 1, 3] [50] 0 ⟨50, some 2, some 28, some 28⟩
    (by decide)
    (by norm_num [calculateConfidenceIntervals, calcIntervalsFromSorted, sortAsc,
      List.insertionSort, List.orderedInsert, fl64_half, fl64_three_halves])
    (by norm_num) (by norm_num)
  have heq : (⌊fl64 ((([2, 1, 3] : List ℕ).length : ℚ) *
      fl64 (((⟨50, some 2, some 28, some 28⟩ : ConfidenceInterval).confidence : ℚ) /
        100))⌋).toNat = 1 := by
    norm_num [fl64_half, fl64_three_halves]
  rw [heq] at h
  simpa using h

/-- C4: for a non-empty trial-result list and requested confidence levels
given in ascending order (all below 100), the returned intervals are in
ascending order of confidence level, and along the output the reported
`periodsRequired` values are monotone: a higher confidence level never
reports fewer periods (hence never an earlier completion date) than a lower
one.  This covers every pair `p1 < p2` of levels in the same request. -/
theorem confidence_intervals_monotone (results levels : List ℕ) (today : ℤ)
    (hne : results ≠ []) (hlt : ∀ p ∈ levels, p < 100)
    (hsorted : levels.Sorted (· ≤ ·)) :
    (calculateConfidenceIntervals results levels today).Sorted
      (fun a b => a.confidence ≤ b.confidence ∧
        ∃ v w, a.periodsRequired = some v ∧ b.periodsRequired = some w ∧ v ≤ w) := by
  rw [calculateConfidenceIntervals, calcIntervalsFromSorted]
  refine List.pairwise_map.mpr (List.Pairwise.imp_of_mem ?_ hsorted)
  intro p q hp hq hpq
  rcases percentile_values_mono hne hpq (hlt q hq) with ⟨v, w, hv, hw, hvw⟩
  exact ⟨hpq, v, w, hv, hw, hvw⟩

/-- Witness for C4 at a concrete input. -/
theorem confidence_intervals_monotone_witness :
    (calculateConfidenceIntervals [3, 1, 2] [50, 95] 0).Sorted
      (fun a b => a.confidence ≤ b.confidence ∧
        ∃ v w, a.periodsRequired = some v ∧ b.periodsRequired = some w ∧ v ≤ w) :=
  confidence_intervals_monotone [3, 1, 2] [50, 95] 0 (by decide) (by decide)
    (by decide)

/-- C7 counterexample: the returned `ForecastResult` does not contain the raw
trial-result sequence.  Two runs whose internal raw sequences differ ([1, 2]
versus [2, 1], produced by two ambient random streams that realise the same
draws in opposite trial order) return identical `ForecastResult`s, so the
result cannot contain (or determine) the raw sequence. -/
theorem raw_trials_not_in_result :
    (runMonteCarloSimulation 5 ⟨some [⟨some 22⟩]⟩ (fetchHistoricalVelocity ⟨some [7]⟩ 6)
        2 false (fun n => if n = 0 then 4/5 else 0) 0).map (fun x => x.1) = some [1, 2] ∧
    (runMonteCarloSimulation 5 ⟨some [⟨some 22⟩]⟩ (fetchHistoricalVelocity ⟨some [7]⟩ 6)
        2 false (fun n => if n = 2 then 4/5 else 0) 0).map (fun x => x.1) = some [2, 1] ∧
    ([1, 2] : List ℕ) ≠ [2, 1] ∧
    monteCarlo 5 ⟨2, [50, 95], ⟨true, 6, false⟩⟩ ⟨some [⟨some 22⟩]⟩ ⟨some [7]⟩
        (fun n => if n = 0 then 4/5 else 0) 0 =
      monteCarlo 5 ⟨2, [50, 95], ⟨true, 6, false⟩⟩ ⟨some [⟨some 22⟩]⟩ ⟨some [7]⟩
        (fun n => if n = 2 then 4/5 else 0) 0 := by
  norm_num [monteCarlo, runMonteCarloSimulation, runSimLoop, runTrialLoop,
    fetchHistoricalVelocity, calculateTotalRemainingStoryPoints, sampleVelocity,
    jsRound, calculateConfidenceIntervals, calcIntervalsFromSorted, sortAsc,
    List.insertionSort, List.orderedInsert, calculateMean, calculateMedian,
    medianFromSorted, calculateVariance, fl64_half, fl64_one, fl64_p95,
    fl64_two_p95]

/-- C7 amended: a completed `monteCarlo` call returns only the echoed
iteration count, the confidence intervals and the mean/median/standard-
deviation summary — no `rawTrialResults` field; internally the simulation
does produce exactly `iterations` trial results, which are then reduced and
discarded. -/
theorem forecast_result_shape (fuel : ℕ) (req : MonteCarloRequest)
    (issuesData : IssuesData) (boardsData : BoardsData) (s : ℕ → ℚ) (today : ℤ)
    (fr : ForecastResult)
    (h : monteCarlo fuel req issuesData boardsData s today = some fr) :
    fr.iterations = req.iterations ∧
    ∃ results pos,
      runMonteCarloSimulation fuel issuesData
          (fetchHistoricalVelocity boardsData req.simulationParams.periodCount)
          req.iterations req.simulationParams.includeBlockers s 0 =
        some (results, pos) ∧
      results.length = req.iterations ∧
      fr.confidenceIntervals =
        calculateConfidenceIntervals results req.confidenceLevels today ∧
      fr.simulationSummary =
        ⟨calculateMean results, calculateMedian results, calculateVariance results⟩ := by
  rw [monteCarlo] at h
  split at h
  · exact absurd h (by simp)
  · rename_i results pos heq
    simp only [Option.some.injEq] at h
    subst h
    refine ⟨rfl, results, pos, heq, ?_, rfl, rfl⟩
    rw [runMonteCarloSimulation] at heq
    exact runSimLoop_length _ _ _ _ _ _ _ _ _ heq

/-- Witness for the C7 amended theorem at a concrete input. -/
theorem forecast_result_shape_witness :
    (⟨1, [⟨50, some 0, some 0, some 0⟩], ⟨some 0, some 0, some 0⟩⟩ :
        ForecastResult).iterations = 1 ∧
    ∃ results pos,
      runMonteCarloSimulation 1 ⟨some []⟩ (fetchHistoricalVelocity ⟨some []⟩ 6)
          1 false (fun _ => (0 : ℚ)) 0 = some (results, pos) ∧
      results.length = 1 ∧
      (⟨1, [⟨50, some 0, some 0, some 0⟩], ⟨some 0, some 0, some 0⟩⟩ :
          ForecastResult).confidenceIntervals =
        calculateConfidenceIntervals results [50] 0 ∧
      (⟨1, [⟨50, some 0, some 0, some 0⟩], ⟨some 0, some 0, some 0⟩⟩ :
          ForecastResult).simulationSummary =
        ⟨calculateMean results, calculateMedian results, calculateVariance results⟩ := by
  have h := forecast_result_shape 1 ⟨1, [50], ⟨true, 6, false⟩⟩ ⟨some []⟩ ⟨some []⟩
    (fun _ => (0 : ℚ)) 0 ⟨1, [⟨50, some 0, some 0, some 0⟩], ⟨some 0, some 0, some 0⟩⟩
    (by norm_num [monteCarlo, runMonteCarloSimulation, runSimLoop, runTrialLoop,
      fetchHistoricalVelocity, calculateTotalRemainingStoryPoints,
      calculateConfidenceIntervals, calcIntervalsFromSorted, sortAsc,
      List.insertionSort, List.orderedInsert, calculateMean, calculateMedian,
      medianFromSorted, calculateVariance, fl64_half])
  exact h

/-- C8: the claim says a forecast with insufficient history fails with an
InsufficientHistory condition before any simulation work.  The code has no
such condition: with an empty board list (no historical data at all)
`fetchHistoricalVelocity` silently returns the all-zero velocity record and
`monteCarlo` proceeds into the simulation — with positive remaining work the
trial loop then never terminates (`none` for every fuel, i.e. the JS call
never returns), and with zero remaining work it happily returns a degenerate
instant-completion forecast.  Both behaviours contradict fail-fast
rejection. -/
theorem empty_history_not_rejected :
    (∀ periodCount, fetchHistoricalVelocity ⟨some []⟩ periodCount = ⟨[], 0, 0⟩) ∧
    (∀ fuel s, monteCarlo fuel ⟨1, [50], ⟨true, 6, false⟩⟩ ⟨some [⟨some 5⟩]⟩
        ⟨some []⟩ s 0 = none) ∧
    monteCarlo 1 ⟨1, [50], ⟨true, 6, false⟩⟩ ⟨some []⟩ ⟨some []⟩ (fun _ => 0) 0 =
      some ⟨1, [⟨50, some 0, some 0, some 0⟩], ⟨some 0, some 0, some 0⟩⟩ := by
  refine ⟨fun _ => rfl, fun fuel s => ?_, ?_⟩
  · have h5 : calculateTotalRemainingStoryPoints ⟨some [⟨some 5⟩]⟩ = 5 := by
      norm_num [calculateTotalRemainingStoryPoints]
    have hstuck := runTrialLoop_stuck [] false s 5 (by norm_num) fuel 0 0
    simp [monteCarlo, runMonteCarloSimulation, fetchHistoricalVelocity, h5,
      runSimLoop, hstuck]
  · norm_num [monteCarlo, runMonteCarloSimulation, runSimLoop, runTrialLoop,
      fetchHistoricalVelocity, calculateTotalRemainingStoryPoints,
      calculateConfidenceIntervals, calcIntervalsFromSorted, sortAsc,
      List.insertionSort, List.orderedInsert, calculateMean, calculateMedian,
      medianFromSorted, calculateVariance, fl64_half]

lemma jsRound_nonneg {x : ℚ} (hx : 0 ≤ x) : 0 ≤ jsRound x := by
  rw [jsRound]
  have h : (0 : ℤ) ≤ ⌊x + 1/2⌋ := Int.le_floor.mpr (by push_cast; linarith)
  exact_mod_cast h

lemma jsRound_le_int {x : ℚ} {k : ℤ} (hx : x ≤ (k : ℚ)) : jsRound x ≤ (k : ℚ) := by
  rw [jsRound]
  have h1 : ⌊x + 1/2⌋ ≤ ⌊(k : ℚ) + 1/2⌋ := Int.floor_le_floor (by linarith)
  have h2 : ⌊(k : ℚ) + 1/2⌋ = k := by
    rw [Int.floor_int_add]
    norm_num
  exact_mod_cast h1.trans_eq h2

/-- Each sampled velocity is a non-negative integer value. -/
lemma sampleVelocity_eq_int (vd : VelocityData) (z : ℚ) :
    ∃ k : ℤ, 0 ≤ k ∧ sampleVelocity vd z = (k : ℚ) := by
  refine ⟨max 0 ⌊vd.mean + z * vd.stdDev + 1/2⌋, le_max_left _ _, ?_⟩
  rw [sampleVelocity, jsRound, Int.cast_max]
  norm_num

/-- C9: velocities out of the Sampler are never negative — negative baseline
draws are clamped to zero — and whenever the impact draw lies in the range of
`Math.random()` (so the drawn impact is in [0.2, 0.6) ⊆ [0, 1]), applying the
blocker keeps the effective velocity non-negative and never increases it. -/
theorem sampler_nonneg_and_blocker_contraction (vd : VelocityData) (z : ℚ)
    (s : ℕ → ℚ) (pos : ℕ) (hu0 : 0 ≤ s (pos + 1)) (hu1 : s (pos + 1) < 1) :
    0 ≤ sampleVelocity vd z ∧
    0 ≤ (applyRandomBlockers (sampleVelocity vd z) s pos).1 ∧
    (applyRandomBlockers (sampleVelocity vd z) s pos).1 ≤ sampleVelocity vd z := by
  rcases sampleVelocity_eq_int vd z with ⟨k, hk, hv⟩
  have hv0 : 0 ≤ sampleVelocity vd z := by
    rw [hv]
    exact_mod_cast hk
  have hfactor0 : 0 ≤ 1 - (1/5 + s (pos + 1) * (2/5)) := by linarith
  have hfactor1 : 1 - (1/5 + s (pos + 1) * (2/5)) ≤ 1 := by linarith
  refine ⟨hv0, ?_, ?_⟩ <;> rw [applyRandomBlockers] <;> split
  · exact jsRound_nonneg (mul_nonneg hv0 hfactor0)
  · exact hv0
  · have hle : sampleVelocity vd z * (1 - (1/5 + s (pos + 1) * (2/5))) ≤ (k : ℚ) := by
      rw [← hv]
      exact mul_le_of_le_one_right hv0 hfactor1
    rw [hv] at hle ⊢
    exact jsRound_le_int hle
  · exact le_refl _

/-- Witness for C9 at a concrete input (a draw that takes the blocked
branch: first uniform 1/10 < 1/5). -/
theorem sampler_nonneg_and_blocker_contraction_witness :
    0 ≤ sampleVelocity ⟨[], 41/2, 187/100⟩ (-12) ∧
    0 ≤ (applyRandomBlockers (sampleVelocity ⟨[], 41/2, 187/100⟩ (-12))
          (fun _ => 1/10) 0).1 ∧
    (applyRandomBlockers (sampleVelocity ⟨[], 41/2, 187/100⟩ (-12))
          (fun _ => 1/10) 0).1 ≤ sampleVelocity ⟨[], 41/2, 187/100⟩ (-12) :=
  sampler_nonneg_and_blocker_contraction ⟨[], 41/2, 187/100⟩ (-12)
    (fun _ => 1/10) 0 (by norm_num) (by norm_num)

lemma heap_sortCopy_frame (h : Heap) (r : ℕ) (hr : r < Heap.size h) :
    Heap.refGet
        (Heap.sortInPlace (Heap.alloc h (Heap.refGet h r)).1
          (Heap.alloc h (Heap.refGet h r)).2) r =
      Heap.refGet h r := by
  rw [Heap.size] at hr
  conv_lhs => rw [Heap.sortInPlace, Heap.alloc, Heap.refGet]
  rw [List.getElem?_set_ne (by omega : h.length ≠ r), List.getElem?_append]
  simp only [hr, if_pos]
  rfl

lemma heap_sortCopy_get (h : Heap) (v : List ℕ) :
    Heap.refGet
        (Heap.sortInPlace (Heap.alloc h v).1 (Heap.alloc h v).2)
        (Heap.alloc h v).2 =
      sortAsc v := by
  conv_lhs => rw [Heap.sortInPlace, Heap.alloc, Heap.refGet]
  rw [List.getElem?_set_self (by simp)]
  have hv : Heap.refGet (h ++ [v]) h.length = v := by
    rw [Heap.refGet, List.getElem?_concat_length]
    rfl
  simp [hv]

/-- C10: the reducers sort only a spread-copy of their input array.  At the
array-object level, after `calculateConfidenceIntervals` and after
`calculateMedian` the input array object still holds exactly its original
contents in the original order, and the computed results agree with the pure
functions of that original content. -/
theorem reducers_sort_a_copy (h : Heap) (r : ℕ) (levels : List ℕ) (today : ℤ)
    (hr : r < Heap.size h) :
    Heap.refGet (calculateConfidenceIntervalsH h r levels today).1 r =
      Heap.refGet h r ∧
    (calculateConfidenceIntervalsH h r levels today).2 =
      calculateConfidenceIntervals (Heap.refGet h r) levels today ∧
    Heap.refGet (calculateMedianH h r).1 r = Heap.refGet h r ∧
    (calculateMedianH h r).2 = calculateMedian (Heap.refGet h r) := by
  refine ⟨heap_sortCopy_frame h r hr, ?_, heap_sortCopy_frame h r hr, ?_⟩
  · show calcIntervalsFromSorted _ levels today = _
    rw [heap_sortCopy_get]
    rfl
  · show medianFromSorted _ = _
    rw [heap_sortCopy_get]
    rfl

/-- Witness for C10 at a concrete input. -/
theorem reducers_sort_a_copy_witness :
    Heap.refGet (calculateConfidenceIntervalsH [[3, 1, 2]] 0 [50] 7).1 0 =
      Heap.refGet [[3, 1, 2]] 0 ∧
    (calculateConfidenceIntervalsH [[3, 1, 2]] 0 [50] 7).2 =
      calculateConfidenceIntervals (Heap.refGet [[3, 1, 2]] 0) [50] 7 ∧
    Heap.refGet (calculateMedianH [[3, 1, 2]] 0).1 0 = Heap.refGet [[3, 1, 2]] 0 ∧
    (calculateMedianH [[3, 1, 2]] 0).2 = calculateMedian (Heap.refGet [[3, 1, 2]] 0) :=
  reducers_sort_a_copy [[3, 1, 2]] 0 [50] 7 (by norm_num [Heap.size])

end Assemble
